import Mathlib

/-!
# Shologuti engine: board, rules and agents, embedded from the Python source

This file gives a shallow embedding of the Shologuti ("Sixteen") game engine:
the fixed 37-node adjacency graph (`RAW_ADJACENCY` / `neighbors`), the board
(`Board`, a list of 37 occupant slots), move generation (`simple_moves`,
`capture_moves`, `legal_moves`), move application (`apply_move`), the turn
engine (`GameRules`, `apply_player_move`) and the parts of the search agents
the verified properties talk about.  Dictionaries over node indices 1..37
become a `List (Option PlayerId)` indexed by `node - 1`; in-place mutation
becomes explicit state passing (each mutating operation returns the new board
or rules state together with the `MoveResult`).
-/

namespace Shologuti

abbrev PlayerId := Nat

/-- Flip between the two players: `2 if player == 1 else 1`. -/
def opponent (player : PlayerId) : PlayerId :=
  if player = 1 then 2 else 1

/-- A directed neighbor relationship on the board: the adjacent node and the
optional landing node when jumping over it to capture. -/
structure Edge where
  neighbor : Nat
  landing : Option Nat
deriving DecidableEq, Repr

/-- The fixed adjacency table: for each node, its outgoing edges as
`(neighbor, optional landing)` pairs, in source order. -/
def RAW_ADJACENCY : Nat → List (Nat × Option Nat)
  | 1  => [(2, some 3), (4, some 9)]
  | 2  => [(1, none), (5, some 9), (3, none)]
  | 3  => [(2, some 1), (6, some 9)]
  | 4  => [(1, none), (5, some 6), (9, some 15)]
  | 5  => [(2, none), (4, none), (6, none), (9, some 14)]
  | 6  => [(3, none), (9, some 13), (5, some 4)]
  | 7  => [(8, some 9), (13, some 19), (12, some 17)]
  | 8  => [(7, none), (13, some 18), (9, some 10)]
  | 9  => [(4, some 1), (5, some 2), (6, some 3), (8, some 7), (13, some 17),
           (14, some 19), (15, some 21), (10, some 11)]
  | 10 => [(9, some 8), (15, some 20), (11, none)]
  | 11 => [(10, some 9), (15, some 19), (16, some 21)]
  | 12 => [(7, none), (13, some 14), (17, some 22)]
  | 13 => [(7, none), (8, none), (9, some 6), (14, some 15), (19, some 25),
           (18, some 23), (17, none), (12, none)]
  | 14 => [(9, some 5), (15, some 16), (19, some 24), (13, some 12)]
  | 15 => [(9, some 4), (10, none), (11, none), (16, none), (21, none),
           (20, some 25), (19, some 23), (14, some 13)]
  | 16 => [(11, none), (15, some 14), (21, some 26)]
  | 17 => [(12, some 7), (13, some 9), (18, some 19), (23, some 29), (22, some 27)]
  | 18 => [(13, some 8), (19, some 20), (23, some 28), (17, none)]
  | 19 => [(13, some 7), (14, some 9), (15, some 11), (20, some 21), (25, some 31),
           (24, some 29), (23, some 27), (18, some 17)]
  | 20 => [(15, some 10), (21, none), (25, some 30), (19, some 18)]
  | 21 => [(16, some 11), (15, some 9), (20, some 19), (25, some 29), (26, some 31)]
  | 22 => [(17, some 12), (23, some 24), (27, none)]
  | 23 => [(17, none), (18, some 13), (19, some 15), (24, some 25), (29, some 34),
           (28, none), (27, none), (22, none)]
  | 24 => [(19, some 14), (25, some 26), (29, some 33), (23, some 22)]
  | 25 => [(19, some 13), (20, some 15), (21, none), (26, none), (31, none),
           (30, none), (29, some 32), (24, some 23)]
  | 26 => [(21, some 16), (25, some 24), (31, none)]
  | 27 => [(22, some 17), (23, some 19), (28, some 29)]
  | 28 => [(23, some 18), (29, some 30), (27, none)]
  | 29 => [(28, some 27), (23, some 17), (24, some 19), (25, some 21), (30, some 31),
           (32, some 35), (33, some 36), (34, some 37)]
  | 30 => [(29, some 28), (25, some 20), (31, none)]
  | 31 => [(30, some 29), (25, some 19), (26, some 21)]
  | 32 => [(29, some 25), (33, some 34), (35, none)]
  | 33 => [(32, none), (29, some 24), (34, none), (36, none)]
  | 34 => [(29, some 23), (33, some 32), (37, none)]
  | 35 => [(32, some 29), (36, some 37)]
  | 36 => [(35, none), (33, some 29), (37, none)]
  | 37 => [(36, some 35), (34, some 29)]
  | _  => []

/-- All outgoing edges from `node` as `Edge` values. -/
def neighbors (node : Nat) : List Edge :=
  (RAW_ADJACENCY node).map (fun p => { neighbor := p.1, landing := p.2 })

/-- The board: 37 occupant slots, slot `i` holding the occupant of node
`i + 1` (`none`, player 1 or player 2). -/
abbrev Board := List (Option PlayerId)

/-- A candidate move derived from the current board and the adjacency graph. -/
structure MoveOption where
  origin : Nat
  target : Nat
  captured : Option Nat
deriving DecidableEq, Repr

/-- The outcome record of one apply-move call. -/
structure MoveResult where
  legal : Bool
  captured : Option Nat := none
  must_continue : Bool := false
  winner : Option PlayerId := none
  error : Option String := none
deriving DecidableEq, Repr

/-- `BoardState.occupant`: the occupant of `node`, `none` for indices outside
the 37 board slots (the Python dict holds exactly the keys 1..37 and `get`
returns `None` elsewhere). -/
def occupant (b : Board) (node : Nat) : Option PlayerId :=
  if 1 ≤ node ∧ node ≤ 37 then b.getD (node - 1) none else none

/-- `BoardState.set_occupant`: write one slot. -/
def set_occupant (b : Board) (node : Nat) (player : Option PlayerId) : Board :=
  b.set (node - 1) player

/-- The initial layout: nodes 1..16 hold player 1, nodes 22..37 hold player 2,
nodes 17..21 are empty. -/
def initial_board : Board :=
  (List.range 37).map (fun i =>
    if i + 1 ≤ 16 then some 1 else if 22 ≤ i + 1 then some 2 else none)

/-- `BoardState.simple_moves`: one non-capturing option per edge from `origin`
whose neighbor is empty; empty if `origin` is not occupied by `player`. -/
def simple_moves (b : Board) (origin : Nat) (player : PlayerId) : List MoveOption :=
  if occupant b origin ≠ some player then []
  else
    (neighbors origin).filterMap (fun edge =>
      if occupant b edge.neighbor = none then
        some { origin := origin, target := edge.neighbor, captured := none }
      else none)

/-- `BoardState.capture_moves`: for each edge with a landing node whose
neighbor holds the opponent and whose landing is empty, a capture option;
empty if `origin` is not occupied by `player`. -/
def capture_moves (b : Board) (origin : Nat) (player : PlayerId) : List MoveOption :=
  if occupant b origin ≠ some player then []
  else
    (neighbors origin).filterMap (fun edge =>
      match edge.landing with
      | none => none
      | some landing =>
        if occupant b edge.neighbor = some (opponent player) ∧
            occupant b landing = none then
          some { origin := origin, target := landing, captured := some edge.neighbor }
        else none)

/-- `BoardState.legal_moves`: exactly the captures when `require_capture`,
otherwise captures followed by simple moves when a capture exists, and simple
moves alone when none does. -/
def legal_moves (b : Board) (origin : Nat) (player : PlayerId)
    (require_capture : Bool) : List MoveOption :=
  let captures := capture_moves b origin player
  if require_capture then captures
  else
    let simple := simple_moves b origin player
    if captures ≠ [] then captures ++ simple else simple

/-- `BoardState.remaining`: number of slots held by `player`. -/
def remaining (b : Board) (player : PlayerId) : Nat :=
  b.countP (fun slot => slot = some player)

/-- The total piece count on the board, `remaining(1) + remaining(2)`. -/
def total (b : Board) : Nat :=
  remaining b 1 + remaining b 2

/-- `BoardState._check_winner`: a player with zero pieces left loses; if both
are zero, no winner. -/
def check_winner (b : Board) : Option PlayerId :=
  let red := remaining b 1
  let green := remaining b 2
  if red = 0 ∧ green = 0 then none
  else if red = 0 then some 2
  else if green = 0 then some 1
  else none

/-- `BoardState.apply_move`: resolve the requested `(origin, target)` among
the legal options; on no match return an `illegal_move` result and the board
unchanged; otherwise vacate the origin, occupy the target, vacate the captured
node if present, recompute the winner, and set `must_continue` when a capture
just occurred, no winner is decided and a further capture exists from the
landing node. -/
def move_board (b : Board) (player : PlayerId) (origin target : Nat)
    (captured : Option Nat) : Board :=
  let b1 := set_occupant b origin none
  let b2 := set_occupant b1 target (some player)
  match captured with
  | some c => set_occupant b2 c none
  | none => b2

def apply_move (b : Board) (player : PlayerId) (origin target : Nat)
    (require_capture : Bool) : Board × MoveResult :=
  let options := legal_moves b origin player require_capture
  match options.find? (fun move => move.target = target) with
  | none => (b, { legal := false, error := some "illegal_move" })
  | some option =>
    let b3 := move_board b player origin target option.captured
    let winner := check_winner b3
    let mustContinue : Bool :=
      if option.captured.isSome ∧ winner = none then
        decide (0 < (capture_moves b3 target player).length)
      else false
    (b3, { legal := true, captured := option.captured,
           must_continue := mustContinue, winner := winner })

/-- `BoardState.any_capture_available`: some piece of `player` has a capture. -/
def any_capture_available (b : Board) (player : PlayerId) : Bool :=
  (List.range' 1 37).any (fun origin =>
    occupant b origin = some player ∧ capture_moves b origin player ≠ [])

/-- Scenario B's position: node 9 holds color 2, node 4 holds color 1, every
other node (in particular node 1) is empty. -/
def scenario_board : Board :=
  (List.range 37).map (fun i =>
    if i + 1 = 9 then some 2 else if i + 1 = 4 then some 1 else none)

/-- `TurnState`: whose turn it is and the pending forced-capture origin. -/
structure TurnState where
  to_move : PlayerId := 2
  pending_capture_from : Option Nat := none
deriving DecidableEq, Repr

/-- `TurnState.swap_turn`: clear the pending capture and flip the turn. -/
def swap_turn (t : TurnState) : TurnState :=
  { pending_capture_from := none,
    to_move := if t.to_move = 1 then 2 else 1 }

/-- `GameRules`: one board plus one turn state. -/
structure GameRules where
  board : Board
  turn : TurnState
deriving DecidableEq, Repr

/-- The state at match start: initial layout, player 2 to move, no pending
capture. -/
def initial_rules : GameRules :=
  { board := initial_board, turn := {} }

/-- `GameRules.apply_player_move`: reject out-of-turn movers and chain
violations without touching the board; otherwise delegate to
`apply_move` (forcing captures while a chain is pending), then either hold the
turn with `pending_capture_from = target` on a forced continuation or swap the
turn, clearing the pending origin unconditionally when a winner is decided. -/
def apply_player_move (g : GameRules) (player : PlayerId) (origin target : Nat) :
    GameRules × MoveResult :=
  if player ≠ g.turn.to_move then
    (g, { legal := false, error := some "not_your_turn" })
  else
    let forced_origin := g.turn.pending_capture_from
    let require_capture := forced_origin.isSome
    if _h : ∃ f, forced_origin = some f ∧ origin ≠ f then
      (g, { legal := false, error := some "must_continue_capture" })
    else
      let step := apply_move g.board player origin target require_capture
      let result := step.2
      if ¬ result.legal then ({ g with board := step.1 }, result)
      else
        let turn1 :=
          if result.captured.isSome ∧ result.must_continue then
            { g.turn with pending_capture_from := some target }
          else swap_turn g.turn
        let turn2 :=
          if result.winner.isSome then { turn1 with pending_capture_from := none }
          else turn1
        ({ board := step.1, turn := turn2 }, result)

/-- Applying a whole sequence of requested moves, starting from `g`. -/
def play (g : GameRules) (ms : List (PlayerId × Nat × Nat)) : GameRules :=
  ms.foldl (fun s m => (apply_player_move s m.1 m.2.1 m.2.2).1) g

/-- The states reachable from the initial position by `apply_player_move`
calls (legal or not). -/
inductive Reachable : GameRules → Prop
  | init : Reachable initial_rules
  | step (player origin target : Nat) {g : GameRules} :
      Reachable g → Reachable (apply_player_move g player origin target).1

/-! ## Search agents (`shologuti/ai.py`) -/

/-- A chosen origin/target pair, the agents' output. -/
structure PlannedMove where
  origin : Nat
  target : Nat
deriving DecidableEq, Repr

/-- Scores used by the minimax search: integers extended below by `-math.inf`
and above by `+math.inf` (the evaluation function only ever produces
integers). -/
abbrev Score := WithBot (WithTop Int)

def negInf : Score := ⊥

def posInf : Score := ((⊤ : WithTop Int) : Score)

def intScore (z : Int) : Score := ((z : WithTop Int) : Score)

/-- `_generate_moves`: the pending-capture origin forces its capture list when
it belongs to the queried player's own turn; otherwise scan origins 1..37 in
order, collecting captures (preferred when any exist) and quiet moves. -/
def generate_moves (state : GameRules) (for_player : Option PlayerId) :
    List MoveOption :=
  let player := for_player.getD state.turn.to_move
  let enforce_origin :=
    if player = state.turn.to_move then state.turn.pending_capture_from else none
  match enforce_origin with
  | some f =>
    if occupant state.board f ≠ some player then []
    else capture_moves state.board f player
  | none =>
    let pairs := (List.range' 1 37).foldl
      (fun (acc : List MoveOption × List MoveOption) origin =>
        if occupant state.board origin ≠ some player then acc
        else
          let cm := capture_moves state.board origin player
          if cm ≠ [] then (acc.1 ++ cm, acc.2)
          else (acc.1, acc.2 ++ simple_moves state.board origin player))
      ([], [])
    if pairs.1 ≠ [] then pairs.1 else pairs.2

/-- `_winner_for_state`: zero pieces loses, and a side to move with no legal
moves loses to its opponent. -/
def winner_for_state (state : GameRules) : Option PlayerId :=
  let red_remaining := remaining state.board 1
  let green_remaining := remaining state.board 2
  if red_remaining = 0 ∧ green_remaining = 0 then none
  else if red_remaining = 0 then some 2
  else if green_remaining = 0 then some 1
  else if generate_moves state none = [] then some (opponent state.turn.to_move)
  else none

/-- `MinimaxAgent._evaluate`: material times ten plus mobility plus a pending
forced-capture bonus. -/
def evaluate (agent : PlayerId) (state : GameRules) : Int :=
  let my_pieces : Int := remaining state.board agent
  let opp_pieces : Int := remaining state.board (opponent agent)
  let material := my_pieces - opp_pieces
  let my_moves : Int := (generate_moves state (some agent)).length
  let opp_moves : Int := (generate_moves state (some (opponent agent))).length
  let mobility := my_moves - opp_moves
  let pending_bonus : Int :=
    if state.turn.pending_capture_from.isSome ∧ state.turn.to_move = agent then 1
    else 0
  material * 10 + mobility + pending_bonus

/-- The alpha-beta move loop of `MinimaxAgent._minimax`: fold the candidate
moves, skipping illegal branches, maximizing or minimizing `value`, and
cutting off when `beta ≤ alpha`; the flag records whether a legal branch was
found. -/
def alphabeta_fold (recurse : GameRules → Score → Score → Score) (maximizing : Bool)
    (player : PlayerId) :
    List MoveOption → GameRules → Score → Score → Score → Bool → Score × Bool
  | [], _, _, _, value, found => (value, found)
  | option :: rest, state, alpha, beta, value, found =>
    let child := apply_player_move state player option.origin option.target
    if ¬ child.2.legal then
      alphabeta_fold recurse maximizing player rest state alpha beta value found
    else
      if maximizing then
        let value' := max value (recurse child.1 alpha beta)
        let alpha' := max alpha value'
        if beta ≤ alpha' then (value', true)
        else alphabeta_fold recurse maximizing player rest state alpha' beta value' true
      else
        let value' := min value (recurse child.1 alpha beta)
        let beta' := min beta value'
        if beta' ≤ alpha then (value', true)
        else alphabeta_fold recurse maximizing player rest state alpha beta' value' true

/-- `MinimaxAgent._minimax`: a decided winner scores `±inf`; at depth zero the
static evaluation is used; otherwise recurse over the generated moves with
alpha-beta pruning, falling back to the static evaluation when no legal branch
exists. -/
def minimax (agent : PlayerId) (depth : Nat) (state : GameRules)
    (alpha beta : Score) : Score :=
  let winner := winner_for_state state
  if winner ≠ none then
    if winner = some agent then posInf else negInf
  else
    match depth with
    | 0 => intScore (evaluate agent state)
    | d + 1 =>
      let player_to_move := state.turn.to_move
      let maximizing := player_to_move = agent
      let moves := generate_moves state none
      if moves = [] then intScore (evaluate agent state)
      else
        let res := alphabeta_fold (fun s a b => minimax agent d s a b)
          maximizing player_to_move moves state alpha beta
          (if maximizing then negInf else posInf) false
        if ¬ res.2 then intScore (evaluate agent state)
        else res.1

/-- A position in which both sides still have pieces but player 1, to move,
is completely blocked: its one piece on node 35 faces occupied neighbors with
occupied landings. -/
def blocked_rules : GameRules :=
  { board := (List.range 37).map (fun i =>
      if i + 1 = 35 then some 1
      else if i + 1 = 29 ∨ i + 1 = 32 ∨ i + 1 = 36 ∨ i + 1 = 37 then some 2
      else none),
    turn := { to_move := 1, pending_capture_from := none } }

/-- A position with the match still running used by Scenario F: the board of
Scenario B with player 2 to move. -/
def scenario_rules : GameRules :=
  { board := scenario_board, turn := { to_move := 2, pending_capture_from := none } }

/-- One node of the MCTS tree: the cloned state, the originating move, the
untried-move list, the visit count, the accumulated reward and the children.
The source's parent links become passing the rollout reward back up the
recursive selection path. -/
inductive MCTSTree : Type where
  | mk (state : GameRules) (move : Option MoveOption) (untried : List MoveOption)
      (visits : Nat) (wins : Float) (children : List MCTSTree)

def MCTSTree.state : MCTSTree → GameRules
  | .mk s _ _ _ _ _ => s

def MCTSTree.move : MCTSTree → Option MoveOption
  | .mk _ m _ _ _ _ => m

def MCTSTree.untried : MCTSTree → List MoveOption
  | .mk _ _ u _ _ _ => u

def MCTSTree.visits : MCTSTree → Nat
  | .mk _ _ _ v _ _ => v

def MCTSTree.wins : MCTSTree → Float
  | .mk _ _ _ _ w _ => w

def MCTSTree.children : MCTSTree → List MCTSTree
  | .mk _ _ _ _ _ cs => cs

/-- `_MCTSNode.__init__`: a fresh node computes its untried moves from the
state and starts with no visits, no reward and no children. -/
def mcts_new_node (state : GameRules) (move : Option MoveOption) : MCTSTree :=
  .mk state move (generate_moves state none) 0 0.0 []

/-- `_MCTSNode.is_terminal`. -/
def MCTSTree.is_terminal (t : MCTSTree) : Bool :=
  if winner_for_state t.state ≠ none then true
  else (generate_moves t.state none).length = 0

/-- `_MCTSNode.best_child`'s UCB1 score (`math.inf` for unvisited children). -/
def ucb_score (exploration_constant : Float) (parent_visits : Nat)
    (child : MCTSTree) : Float :=
  if child.visits = 0 then 1.0 / 0.0
  else
    let exploitation := child.wins / Float.ofNat child.visits
    let exploration := exploration_constant *
      Float.sqrt (max (Float.log (Float.ofNat parent_visits)) 0.0 /
        Float.ofNat child.visits)
    exploitation + exploration

/-- The index of the first child attaining the maximal UCB1 score (Python's
`max` keeps the first maximum under strict comparison). -/
def best_child_index (exploration_constant : Float) (parent_visits : Nat) :
    List MCTSTree → Nat
  | [] => 0
  | child :: rest =>
    (rest.foldl
      (fun (acc : Nat × Float × Nat) x =>
        let score := ucb_score exploration_constant parent_visits x
        if score > acc.2.1 then (acc.2.2, score, acc.2.2 + 1)
        else (acc.1, acc.2.1, acc.2.2 + 1))
      (0, ucb_score exploration_constant parent_visits child, 1)).1

/-- `MCTSAgent._rollout`: play random legal moves until a winner appears, the
side to move is stuck, an illegal application occurs, or 200 plies elapse;
rewards are 1.0 / 0.0 / 0.5. Random draws come from `stream` at the running
counter `k`; the counter is returned alongside the reward. -/
def mcts_rollout (agent : PlayerId) (stream : Nat → Nat) :
    Nat → GameRules → Nat → Float × Nat
  | 0, _, k => (0.5, k)
  | fuel + 1, simulation, k =>
    let winner := winner_for_state simulation
    if winner ≠ none then
      if winner = some agent then (1.0, k)
      else if winner = some (opponent agent) then (0.0, k)
      else (0.5, k)
    else
      let moves := generate_moves simulation none
      if moves.length = 0 then (0.5, k)
      else
        let move := moves.getD (stream k % moves.length)
          { origin := 0, target := 0, captured := none }
        let result := apply_player_move simulation simulation.turn.to_move
          move.origin move.target
        if ¬ result.2.legal then (0.5, k + 1)
        else mcts_rollout agent stream fuel result.1 (k + 1)

/-- The expansion/rollout phase of one MCTS iteration at the selected node:
expand one random untried move when the node is non-terminal and has one
(aborting the iteration without a reward when the popped move is illegal —
the source's `continue`), otherwise roll out from the node itself; the
node's own visit/reward update of backpropagation is applied here. -/
def mcts_leaf (agent : PlayerId) (stream : Nat → Nat) (t : MCTSTree) (k : Nat) :
    MCTSTree × Option Float × Nat :=
  if t.is_terminal = false ∧ t.untried.length ≠ 0 then
    let idx := stream k % t.untried.length
    let move := t.untried.getD idx { origin := 0, target := 0, captured := none }
    let untried' := t.untried.eraseIdx idx
    let next_state := apply_player_move t.state t.state.turn.to_move
      move.origin move.target
    if next_state.2.legal then
      let rollout := mcts_rollout agent stream 200 next_state.1 (k + 1)
      let child := MCTSTree.mk next_state.1 (some move)
        (generate_moves next_state.1 none) 1 rollout.1 []
      (.mk t.state t.move untried' (t.visits + 1) (t.wins + rollout.1)
        (t.children ++ [child]), some rollout.1, rollout.2)
    else
      (.mk t.state t.move untried' t.visits t.wins t.children, none, k + 1)
  else
    let rollout := mcts_rollout agent stream 200 t.state k
    (.mk t.state t.move t.untried (t.visits + 1) (t.wins + rollout.1) t.children,
      some rollout.1, rollout.2)

/-- One full MCTS iteration (selection via UCB1 while fully expanded,
non-terminal and with children; then expansion/rollout; backpropagation adds
the reward at every node of the descent path). The descent is structural on a
fuel that the caller sets to the node count of the tree, which bounds its
height. -/
def mcts_step (agent : PlayerId) (exploration_constant : Float) (stream : Nat → Nat) :
    Nat → MCTSTree → Nat → MCTSTree × Option Float × Nat
  | 0, t, k => mcts_leaf agent stream t k
  | fuel + 1, t, k =>
    if t.untried.length = 0 ∧ t.is_terminal = false ∧ t.children.length ≠ 0 then
      let i := best_child_index exploration_constant t.visits t.children
      let child := t.children.getD i t
      let rec_result := mcts_step agent exploration_constant stream fuel child k
      match rec_result.2.1 with
      | some reward =>
        (.mk t.state t.move t.untried (t.visits + 1) (t.wins + reward)
          (t.children.set i rec_result.1), some reward, rec_result.2.2)
      | none =>
        (.mk t.state t.move t.untried t.visits t.wins
          (t.children.set i rec_result.1), none, rec_result.2.2)
    else mcts_leaf agent stream t k

mutual

/-- Node count of an MCTS tree, used as descent fuel. -/
def tree_size : MCTSTree → Nat
  | .mk _ _ _ _ _ children => 1 + forest_size children

def forest_size : List MCTSTree → Nat
  | [] => 0
  | t :: ts => tree_size t + forest_size ts

end

/-- The `for _ in range(self.iterations)` loop of `MCTSAgent.choose_move`. -/
def mcts_loop (agent : PlayerId) (exploration_constant : Float) (stream : Nat → Nat) :
    Nat → MCTSTree → Nat → MCTSTree × Nat
  | 0, t, k => (t, k)
  | n + 1, t, k =>
    let step := mcts_step agent exploration_constant stream (tree_size t) t k
    mcts_loop agent exploration_constant stream n step.1 step.2.2

/-- The index of the first root child with the maximal visit count. -/
def best_visits_index : List MCTSTree → Nat
  | [] => 0
  | child :: rest =>
    (rest.foldl
      (fun (acc : Nat × Nat × Nat) x =>
        if x.visits > acc.2.1 then (acc.2.2, x.visits, acc.2.2 + 1)
        else (acc.1, acc.2.1, acc.2.2 + 1))
      (0, child.visits, 1)).1

/-- `MCTSAgent.choose_move` (with `__init__`'s clamp `iterations = max(1, n)`):
run the iterations from a fresh root, then commit to the root child with the
most visits, or report no move when the root has no children. -/
def mcts_choose_move (agent : PlayerId) (iterations : Nat)
    (exploration_constant : Float) (stream : Nat → Nat) (state : GameRules) :
    Option PlannedMove :=
  let root := mcts_new_node state none
  let final := mcts_loop agent exploration_constant stream (max 1 iterations) root 0
  if final.1.children.length = 0 then none
  else
    let best := final.1.children.getD (best_visits_index final.1.children)
      (mcts_new_node state none)
    match best.move with
    | none => none
    | some m => some { origin := m.origin, target := m.target }

/-! ## List and adjacency helper lemmas -/

theorem getD_set_self {α : Type} {l : List α} {i : Nat} {v d : α} (h : i < l.length) :
    (l.set i v).getD i d = v := by
  rw [List.getD_eq_getElem?_getD, List.getElem?_set_self]
  · rfl
  · exact h

theorem getD_set_ne {α : Type} {l : List α} {i j : Nat} {v d : α} (h : i ≠ j) :
    (l.set i v).getD j d = l.getD j d := by
  rw [List.getD_eq_getElem?_getD, List.getElem?_set_ne h, ← List.getD_eq_getElem?_getD]

theorem countP_set (p : Option PlayerId → Bool) :
    ∀ (l : Board) (i : Nat) (v d : Option PlayerId), i < l.length →
      (l.set i v).countP p + (if p (l.getD i d) then 1 else 0)
        = l.countP p + (if p v then 1 else 0) := by
  intro l
  induction l with
  | nil =>
    intro i v d h
    simp at h
  | cons a t ih =>
    intro i v d h
    cases i with
    | zero =>
      simp only [List.set, List.getD_cons_zero, List.countP_cons]
      omega
    | succ n =>
      have hn : n < t.length := by simpa using h
      have hrec := ih n v d hn
      simp only [List.set, List.getD_cons_succ, List.countP_cons]
      omega

theorem occupant_some_bounds {b : Board} {node : Nat} {v : PlayerId}
    (h : occupant b node = some v) :
    1 ≤ node ∧ node ≤ 37 ∧ node - 1 < b.length ∧ b.getD (node - 1) none = some v := by
  unfold occupant at h
  split at h
  · rename_i hr
    refine ⟨hr.1, hr.2, ?_, h⟩
    by_contra hlen
    push_neg at hlen
    rw [List.getD_eq_default _ _ hlen] at h
    simp at h
  · simp at h

theorem occupant_none_getD {b : Board} {node : Nat}
    (h : occupant b node = none) (h1 : 1 ≤ node) (h2 : node ≤ 37) :
    b.getD (node - 1) none = none := by
  unfold occupant at h
  rw [if_pos ⟨h1, h2⟩] at h
  exact h

/-- Every edge of the adjacency table stays inside the 37 board nodes, never
points back at its own origin, and a landing never collides with the origin or
the jumped neighbor. -/
theorem adjacency_facts :
    ∀ o ∈ List.range' 1 37, ∀ e ∈ neighbors o,
      (1 ≤ e.neighbor ∧ e.neighbor ≤ 37 ∧ e.neighbor ≠ o) ∧
      ∀ l ∈ e.landing, 1 ≤ l ∧ l ≤ 37 ∧ l ≠ o ∧ l ≠ e.neighbor := by
  decide

theorem neighbors_facts {o : Nat} (h1 : 1 ≤ o) (h2 : o ≤ 37) {e : Edge}
    (he : e ∈ neighbors o) :
    (1 ≤ e.neighbor ∧ e.neighbor ≤ 37 ∧ e.neighbor ≠ o) ∧
      ∀ l ∈ e.landing, 1 ≤ l ∧ l ≤ 37 ∧ l ≠ o ∧ l ≠ e.neighbor := by
  have ho : o ∈ List.range' 1 37 := by
    rw [List.mem_range'_1]
    omega
  exact adjacency_facts o ho e he

/-! ## Membership lemmas for move generation -/

theorem mem_simple_moves {b : Board} {origin : Nat} {player : PlayerId} {m : MoveOption}
    (h : m ∈ simple_moves b origin player) :
    occupant b origin = some player ∧ m.origin = origin ∧ m.captured = none ∧
      occupant b m.target = none ∧ ∃ e ∈ neighbors origin, e.neighbor = m.target := by
  unfold simple_moves at h
  split at h
  · simp at h
  · rename_i hocc
    rw [not_not] at hocc
    rw [List.mem_filterMap] at h
    obtain ⟨e, he, heq⟩ := h
    split at heq
    · rename_i hempty
      cases heq
      exact ⟨hocc, rfl, rfl, hempty, e, he, rfl⟩
    · cases heq

theorem mem_capture_moves {b : Board} {origin : Nat} {player : PlayerId} {m : MoveOption}
    (h : m ∈ capture_moves b origin player) :
    occupant b origin = some player ∧ m.origin = origin ∧
      ∃ e ∈ neighbors origin, e.landing = some m.target ∧ m.captured = some e.neighbor ∧
        occupant b e.neighbor = some (opponent player) ∧ occupant b m.target = none := by
  unfold capture_moves at h
  split at h
  · simp at h
  · rename_i hocc
    rw [not_not] at hocc
    rw [List.mem_filterMap] at h
    obtain ⟨e, he, heq⟩ := h
    rcases hl : e.landing with _ | landing
    · rw [hl] at heq
      simp at heq
    · rw [hl] at heq
      simp only at heq
      split at heq
      · rename_i hcond
        cases heq
        exact ⟨hocc, rfl, e, he, by rw [hl], rfl, hcond.1, hcond.2⟩
      · cases heq

theorem mem_legal_moves {b : Board} {origin : Nat} {player : PlayerId} {rc : Bool}
    {m : MoveOption} (h : m ∈ legal_moves b origin player rc) :
    m ∈ capture_moves b origin player ∨ m ∈ simple_moves b origin player := by
  unfold legal_moves at h
  split at h
  · exact Or.inl h
  · dsimp only at h
    split at h
    · rcases List.mem_append.mp h with hc | hs
      · exact Or.inl hc
      · exact Or.inr hs
    · exact Or.inr h

/-- From any single origin, the landing nodes of the adjacency table are
pairwise distinct, so a capture target determines the captured neighbor. -/
theorem adjacency_landings_nodup :
    ∀ o ∈ List.range' 1 37, ((neighbors o).filterMap (fun e => e.landing)).Nodup := by
  decide

theorem capture_filterMap_mem {b : Board} {origin : Nat} {player : PlayerId}
    {m : MoveOption} {L : List Edge}
    (hm : m ∈ L.filterMap (fun edge =>
      match edge.landing with
      | none => none
      | some landing =>
        if occupant b edge.neighbor = some (opponent player) ∧
            occupant b landing = none then
          some { origin := origin, target := landing, captured := some edge.neighbor }
        else none)) :
    m.target ∈ L.filterMap (fun e => e.landing) := by
  rw [List.mem_filterMap] at hm ⊢
  obtain ⟨e, he, heq⟩ := hm
  rcases hl : e.landing with _ | l
  · rw [hl] at heq
    simp at heq
  · rw [hl] at heq
    simp only at heq
    split at heq
    · cases heq
      exact ⟨e, he, by rw [hl]⟩
    · cases heq

theorem capture_filterMap_find {b : Board} {origin : Nat} {player : PlayerId}
    {m : MoveOption} :
    ∀ {L : List Edge}, (L.filterMap (fun e => e.landing)).Nodup →
      m ∈ L.filterMap (fun edge =>
        match edge.landing with
        | none => none
        | some landing =>
          if occupant b edge.neighbor = some (opponent player) ∧
              occupant b landing = none then
            some { origin := origin, target := landing, captured := some edge.neighbor }
          else none) →
      (L.filterMap (fun edge =>
        match edge.landing with
        | none => none
        | some landing =>
          if occupant b edge.neighbor = some (opponent player) ∧
              occupant b landing = none then
            some { origin := origin, target := landing, captured := some edge.neighbor }
          else none)).find? (fun mv => mv.target = m.target) = some m := by
  intro L
  induction L with
  | nil =>
    intro _ hm
    simp at hm
  | cons e L' ih =>
    intro hnd hm
    rcases hl : e.landing with _ | l
    · simp only [List.filterMap_cons, hl] at hnd hm ⊢
      exact ih hnd hm
    · simp only [List.filterMap_cons, hl] at hnd hm ⊢
      rw [List.nodup_cons] at hnd
      by_cases hcond : occupant b e.neighbor = some (opponent player) ∧
          occupant b l = none
      · rw [if_pos hcond] at hm ⊢
        rcases List.mem_cons.mp hm with heq | htail
        · subst heq
          rw [List.find?_cons_of_pos _ (by simp)]
        · have htgt : m.target ∈ L'.filterMap (fun e => e.landing) :=
            capture_filterMap_mem htail
          have hne : l ≠ m.target := by
            intro hcontra
            rw [hcontra] at hnd
            exact hnd.1 htgt
          rw [List.find?_cons_of_neg _ (by simp [hne])]
          exact ih hnd.2 htail
      · rw [if_neg hcond] at hm ⊢
        exact ih hnd.2 hm

theorem find?_capture_moves_self {b : Board} {origin : Nat} {player : PlayerId}
    {m : MoveOption} (hm : m ∈ capture_moves b origin player) :
    (capture_moves b origin player).find? (fun mv => mv.target = m.target) = some m := by
  have hocc : occupant b origin = some player := (mem_capture_moves hm).1
  obtain ⟨ho1, ho2, _, _⟩ := occupant_some_bounds hocc
  have hnd : ((neighbors origin).filterMap (fun e => e.landing)).Nodup :=
    adjacency_landings_nodup origin (by rw [List.mem_range'_1]; omega)
  unfold capture_moves at hm ⊢
  rw [if_neg (by simp [hocc])] at hm ⊢
  exact capture_filterMap_find hnd hm

/-! ## Helper lemmas about `apply_move` -/

theorem apply_move_of_find_none {b : Board} {player : PlayerId} {origin target : Nat}
    {rc : Bool}
    (h : (legal_moves b origin player rc).find? (fun move => move.target = target) = none) :
    apply_move b player origin target rc =
      (b, { legal := false, error := some "illegal_move" }) := by
  simp [apply_move, h]

theorem apply_move_of_find_some {b : Board} {player : PlayerId} {origin target : Nat}
    {rc : Bool} {option : MoveOption}
    (h : (legal_moves b origin player rc).find? (fun move => move.target = target) =
      some option) :
    apply_move b player origin target rc =
      (move_board b player origin target option.captured,
       { legal := true, captured := option.captured,
         must_continue :=
           if option.captured.isSome ∧
               check_winner (move_board b player origin target option.captured) = none then
             decide (0 < (capture_moves (move_board b player origin target option.captured)
               target player).length)
           else false,
         winner := check_winner (move_board b player origin target option.captured) }) := by
  simp [apply_move, h]

theorem apply_move_not_legal {b : Board} {player : PlayerId} {origin target : Nat}
    {rc : Bool}
    (h : (apply_move b player origin target rc).2.legal = false) :
    (apply_move b player origin target rc).1 = b ∧
    (apply_move b player origin target rc).2.error = some "illegal_move" := by
  rcases hfind : (legal_moves b origin player rc).find? (fun move => move.target = target)
    with _ | option
  · rw [apply_move_of_find_none hfind]
    exact ⟨rfl, rfl⟩
  · rw [apply_move_of_find_some hfind] at h
    simp at h

theorem apply_move_legal_error {b : Board} {player : PlayerId} {origin target : Nat}
    {rc : Bool}
    (h : (apply_move b player origin target rc).2.legal = true) :
    (apply_move b player origin target rc).2.error = none := by
  rcases hfind : (legal_moves b origin player rc).find? (fun move => move.target = target)
    with _ | option
  · rw [apply_move_of_find_none hfind] at h
    simp at h
  · rw [apply_move_of_find_some hfind]

theorem apply_move_must_continue_inv {b : Board} {player : PlayerId} {origin target : Nat}
    {rc : Bool}
    (h : (apply_move b player origin target rc).2.must_continue = true) :
    (apply_move b player origin target rc).2.captured.isSome = true ∧
    (apply_move b player origin target rc).2.winner = none ∧
    capture_moves (apply_move b player origin target rc).1 target player ≠ [] := by
  rcases hfind : (legal_moves b origin player rc).find? (fun move => move.target = target)
    with _ | option
  · rw [apply_move_of_find_none hfind] at h
    simp at h
  · rw [apply_move_of_find_some hfind] at h ⊢
    split at h
    · rename_i hcond
      refine ⟨hcond.1, hcond.2, ?_⟩
      have hlen := of_decide_eq_true h
      intro hnil
      rw [hnil] at hlen
      simp at hlen
    · simp at h

theorem apply_move_legal_dest {b : Board} {player : PlayerId} {origin target : Nat}
    {rc : Bool} (h : (apply_move b player origin target rc).2.legal = true) :
    ∃ option, option ∈ legal_moves b origin player rc ∧
      option.target = target ∧
      (apply_move b player origin target rc).1 =
        move_board b player origin target option.captured ∧
      (apply_move b player origin target rc).2.captured = option.captured := by
  rcases hfind : (legal_moves b origin player rc).find? (fun mv => mv.target = target)
    with _ | option
  · rw [apply_move_of_find_none hfind] at h
    simp at h
  · have hmem := List.mem_of_find?_eq_some hfind
    have htgt : option.target = target := by
      have := List.find?_some hfind
      simpa using this
    rw [apply_move_of_find_some hfind]
    exact ⟨option, hmem, htgt, rfl, rfl⟩

theorem apply_move_anatomy {b : Board} {player : PlayerId} {origin target : Nat}
    {rc : Bool} (hlen : b.length = 37)
    (h : (apply_move b player origin target rc).2.legal = true) :
    (apply_move b player origin target rc).1.length = 37 ∧
    occupant (apply_move b player origin target rc).1 target = some player ∧
    ((apply_move b player origin target rc).2.captured.isSome = true →
      total (apply_move b player origin target rc).1 + 1 = total b) ∧
    ((apply_move b player origin target rc).2.captured = none →
      total (apply_move b player origin target rc).1 = total b) ∧
    (∀ c, (apply_move b player origin target rc).2.captured = some c →
      occupant (apply_move b player origin target rc).1 c = none) := by
  obtain ⟨opt, hmem, htgt, hb, hcap⟩ := apply_move_legal_dest h
  rcases mem_legal_moves hmem with hcmem | hsmem
  · -- capture move
    obtain ⟨hocc, _horig, e, he, hland, hcapt, hmid, htempty⟩ := mem_capture_moves hcmem
    obtain ⟨ho1, ho2, holen, hogetD⟩ := occupant_some_bounds hocc
    obtain ⟨_, hlandfacts⟩ := neighbors_facts ho1 ho2 he
    obtain ⟨ht1, ht2, htno, htnn⟩ := hlandfacts opt.target hland
    obtain ⟨hc1, hc2, hclen, hcgetD⟩ := occupant_some_bounds hmid
    rw [htgt] at ht1 ht2 htno htnn htempty
    rw [hb, hcap, hcapt]
    have hbody : move_board b player origin target (some e.neighbor) =
        ((b.set (origin - 1) none).set (target - 1) (some player)).set
          (e.neighbor - 1) none := by
      simp [move_board, set_occupant]
    rw [hbody]
    have hgetD_t : ((b.set (origin - 1) none).set (target - 1) (some player)).getD
        (e.neighbor - 1) none = some (opponent player) := by
      rw [getD_set_ne (show target - 1 ≠ e.neighbor - 1 by omega),
        getD_set_ne (show origin - 1 ≠ e.neighbor - 1 by omega)]
      exact hcgetD
    refine ⟨by simp [hlen], ?_, ?_, ?_, ?_⟩
    · -- occupant of target is the mover
      unfold occupant
      rw [if_pos ⟨ht1, ht2⟩]
      rw [getD_set_ne (show e.neighbor - 1 ≠ target - 1 by omega),
        getD_set_self (by simp only [List.length_set, hlen]; omega)]
    · -- capture decrements the total by one
      intro _
      have e11 := countP_set (fun slot => decide (slot = some 1)) b (origin - 1)
        none none (by omega)
      have e12 := countP_set (fun slot => decide (slot = some 2)) b (origin - 1)
        none none (by omega)
      have e21 := countP_set (fun slot => decide (slot = some 1)) (b.set (origin - 1) none)
        (target - 1) (some player) none (by simp only [List.length_set, hlen]; omega)
      have e22 := countP_set (fun slot => decide (slot = some 2)) (b.set (origin - 1) none)
        (target - 1) (some player) none (by simp only [List.length_set, hlen]; omega)
      have e31 := countP_set (fun slot => decide (slot = some 1))
        ((b.set (origin - 1) none).set (target - 1) (some player))
        (e.neighbor - 1) none none (by simp only [List.length_set, hlen]; omega)
      have e32 := countP_set (fun slot => decide (slot = some 2))
        ((b.set (origin - 1) none).set (target - 1) (some player))
        (e.neighbor - 1) none none (by simp only [List.length_set, hlen]; omega)
      rw [hogetD] at e11 e12
      have hb1getD : (b.set (origin - 1) none).getD (target - 1) none = none := by
        rw [getD_set_ne (show origin - 1 ≠ target - 1 by omega)]
        exact occupant_none_getD htempty ht1 ht2
      rw [hb1getD] at e21 e22
      rw [hgetD_t] at e31 e32
      simp only [total, remaining]
      by_cases hp1 : player = 1
      · simp [hp1, opponent] at e11 e12 e21 e22 e31 e32 ⊢
        omega
      · by_cases hp2 : player = 2
        · simp [hp2, opponent] at e11 e12 e21 e22 e31 e32 ⊢
          omega
        · simp [hp1, hp2, opponent] at e11 e12 e21 e22 e31 e32 ⊢
          omega
    · -- contradiction: this branch returned a captured node
      intro hnone
      simp at hnone
    · -- the captured node is empty afterwards
      intro c hc
      injection hc with hc'
      subst hc'
      unfold occupant
      rw [if_pos ⟨hc1, hc2⟩]
      rw [getD_set_self (by simp only [List.length_set, hlen]; omega)]
  · -- simple move
    obtain ⟨hocc, _horig, hcapn, htempty, e, he, hne⟩ := mem_simple_moves hsmem
    obtain ⟨ho1, ho2, holen, hogetD⟩ := occupant_some_bounds hocc
    obtain ⟨⟨hn1, hn2, hno⟩, _⟩ := neighbors_facts ho1 ho2 he
    rw [hne, htgt] at hn1 hn2 hno
    rw [htgt] at htempty
    rw [hb, hcap, hcapn]
    have hbody : move_board b player origin target none =
        (b.set (origin - 1) none).set (target - 1) (some player) := by
      simp [move_board, set_occupant]
    rw [hbody]
    refine ⟨by simp [hlen], ?_, ?_, ?_, ?_⟩
    · unfold occupant
      rw [if_pos ⟨hn1, hn2⟩]
      rw [getD_set_self (by simp only [List.length_set, hlen]; omega)]
    · intro hsome
      simp at hsome
    · intro _
      have e11 := countP_set (fun slot => decide (slot = some 1)) b (origin - 1)
        none none (by omega)
      have e12 := countP_set (fun slot => decide (slot = some 2)) b (origin - 1)
        none none (by omega)
      have e21 := countP_set (fun slot => decide (slot = some 1)) (b.set (origin - 1) none)
        (target - 1) (some player) none (by simp only [List.length_set, hlen]; omega)
      have e22 := countP_set (fun slot => decide (slot = some 2)) (b.set (origin - 1) none)
        (target - 1) (some player) none (by simp only [List.length_set, hlen]; omega)
      rw [hogetD] at e11 e12
      have hb1getD : (b.set (origin - 1) none).getD (target - 1) none = none := by
        rw [getD_set_ne (show origin - 1 ≠ target - 1 by omega)]
        exact occupant_none_getD htempty hn1 hn2
      rw [hb1getD] at e21 e22
      simp only [total, remaining]
      by_cases hp1 : player = 1
      · simp [hp1] at e11 e12 e21 e22 ⊢
        omega
      · by_cases hp2 : player = 2
        · simp [hp2] at e11 e12 e21 e22 ⊢
          omega
        · simp [hp1, hp2] at e11 e12 e21 e22 ⊢
          omega
    · intro c hc
      simp at hc

/-! ## Soundness of `_generate_moves` -/

theorem apply_move_legal_of_mem {b : Board} {player : PlayerId} {origin target : Nat}
    {rc : Bool} {m : MoveOption} (hmem : m ∈ legal_moves b origin player rc)
    (htgt : m.target = target) :
    (apply_move b player origin target rc).2.legal = true := by
  rcases hfind : (legal_moves b origin player rc).find? (fun mv => mv.target = target)
    with _ | opt
  · rw [List.find?_eq_none] at hfind
    have := hfind m hmem
    simp [htgt] at this
  · rw [apply_move_of_find_some hfind]

theorem generate_fold_sound (b : Board) (player : PlayerId) :
    ∀ (origins : List Nat) (acc : List MoveOption × List MoveOption),
      (∀ m ∈ acc.1, m ∈ capture_moves b m.origin player) →
      (∀ m ∈ acc.2, m ∈ simple_moves b m.origin player ∧
          capture_moves b m.origin player = []) →
      (∀ m ∈ (origins.foldl
          (fun (acc : List MoveOption × List MoveOption) origin =>
            if occupant b origin ≠ some player then acc
            else
              let cm := capture_moves b origin player
              if cm ≠ [] then (acc.1 ++ cm, acc.2)
              else (acc.1, acc.2 ++ simple_moves b origin player))
          acc).1, m ∈ capture_moves b m.origin player) ∧
      (∀ m ∈ (origins.foldl
          (fun (acc : List MoveOption × List MoveOption) origin =>
            if occupant b origin ≠ some player then acc
            else
              let cm := capture_moves b origin player
              if cm ≠ [] then (acc.1 ++ cm, acc.2)
              else (acc.1, acc.2 ++ simple_moves b origin player))
          acc).2, m ∈ simple_moves b m.origin player ∧
          capture_moves b m.origin player = []) := by
  intro origins
  induction origins with
  | nil =>
    intro acc h1 h2
    exact ⟨h1, h2⟩
  | cons o rest ih =>
    intro acc h1 h2
    rw [List.foldl_cons]
    by_cases hocc : occupant b o = some player
    · rw [if_neg (not_not_intro hocc)]
      dsimp only
      by_cases hcm : capture_moves b o player = []
      · rw [if_neg (not_not_intro hcm)]
        refine ih _ h1 ?_
        intro m hm
        rcases List.mem_append.mp hm with hold | hnew
        · exact h2 m hold
        · have horig := (mem_simple_moves hnew).2.1
          rw [horig]
          exact ⟨hnew, hcm⟩
      · rw [if_pos hcm]
        refine ih _ ?_ h2
        intro m hm
        rcases List.mem_append.mp hm with hold | hnew
        · exact h1 m hold
        · have horig := (mem_capture_moves hnew).2.1
          rw [horig]
          exact hnew
    · rw [if_pos hocc]
      exact ih _ h1 h2

theorem apply_player_move_result_eq {g : GameRules} {origin target : Nat}
    (hnex : ¬ ∃ f0, g.turn.pending_capture_from = some f0 ∧ origin ≠ f0) :
    (apply_player_move g g.turn.to_move origin target).2 =
      (apply_move g.board g.turn.to_move origin target
        g.turn.pending_capture_from.isSome).2 := by
  unfold apply_player_move
  rw [if_neg (by simp), dif_neg hnex]
  dsimp only
  split <;> rfl

theorem generate_moves_sound {g : GameRules} {m : MoveOption}
    (hm : m ∈ generate_moves g none) :
    (apply_player_move g g.turn.to_move m.origin m.target).2.legal = true := by
  rcases hpend : g.turn.pending_capture_from with _ | f
  · -- no pending capture: the per-origin scan
    simp only [generate_moves, Option.getD_none, hpend] at hm
    have hsound := generate_fold_sound g.board g.turn.to_move (List.range' 1 37)
      ([], []) (by simp) (by simp)
    set pairs := (List.range' 1 37).foldl
      (fun (acc : List MoveOption × List MoveOption) origin =>
        if occupant g.board origin ≠ some g.turn.to_move then acc
        else
          let cm := capture_moves g.board origin g.turn.to_move
          if cm ≠ [] then (acc.1 ++ cm, acc.2)
          else (acc.1, acc.2 ++ simple_moves g.board origin g.turn.to_move))
      ([], []) with hpairs
    have hcase : m ∈ capture_moves g.board m.origin g.turn.to_move ∨
        (m ∈ simple_moves g.board m.origin g.turn.to_move ∧
          capture_moves g.board m.origin g.turn.to_move = []) := by
      by_cases hne : pairs.1 ≠ []
      · rw [if_pos hne] at hm
        exact Or.inl (hsound.1 m hm)
      · rw [if_neg hne] at hm
        exact Or.inr (hsound.2 m hm)
    have hnex : ¬ ∃ f0, g.turn.pending_capture_from = some f0 ∧ m.origin ≠ f0 := by
      rw [hpend]
      rintro ⟨f0, hf0, _⟩
      cases hf0
    have hmem : m ∈ legal_moves g.board m.origin g.turn.to_move
        g.turn.pending_capture_from.isSome := by
      rw [hpend]
      show m ∈ legal_moves g.board m.origin g.turn.to_move false
      unfold legal_moves
      rcases hcase with hc | ⟨hs, hc⟩
      · rw [if_neg (by simp), if_pos (by simpa using List.ne_nil_of_mem hc)]
        exact List.mem_append_left _ hc
      · rw [if_neg (by simp)]
        dsimp only
        rw [hc, if_neg (by simp)]
        exact hs
    rw [apply_player_move_result_eq hnex]
    exact apply_move_legal_of_mem hmem rfl
  · -- forced continuation from the pending origin
    simp only [generate_moves, Option.getD_none, hpend] at hm
    by_cases hocc : occupant g.board f = some g.turn.to_move
    · have hm2 : m ∈ capture_moves g.board f g.turn.to_move := by
        have hx : m ∈ (if occupant g.board f ≠ some g.turn.to_move
            then ([] : List MoveOption)
            else capture_moves g.board f g.turn.to_move) := hm
        rwa [if_neg (not_not_intro hocc)] at hx
      have horig := (mem_capture_moves hm2).2.1
      have hnex : ¬ ∃ f0, g.turn.pending_capture_from = some f0 ∧ m.origin ≠ f0 := by
        rw [hpend]
        rintro ⟨f0, hf0, hne⟩
        cases hf0
        exact hne horig
      have hmem : m ∈ legal_moves g.board m.origin g.turn.to_move
          g.turn.pending_capture_from.isSome := by
        rw [hpend]
        show m ∈ capture_moves g.board m.origin g.turn.to_move
        rw [horig]
        exact hm2
      rw [apply_player_move_result_eq hnex]
      exact apply_move_legal_of_mem hmem rfl
    · exfalso
      have hx : m ∈ (if occupant g.board f ≠ some g.turn.to_move
          then ([] : List MoveOption)
          else capture_moves g.board f g.turn.to_move) := hm
      rw [if_pos hocc] at hx
      simp at hx

/-! ## Helper lemmas about `apply_player_move` -/

theorem apply_player_move_not_your_turn {g : GameRules} {player origin target : Nat}
    (h : player ≠ g.turn.to_move) :
    apply_player_move g player origin target =
      (g, { legal := false, error := some "not_your_turn" }) := by
  simp [apply_player_move, h]

theorem apply_player_move_must_continue_guard {g : GameRules} {player origin target : Nat}
    (h1 : player = g.turn.to_move)
    (h2 : ∃ f, g.turn.pending_capture_from = some f ∧ origin ≠ f) :
    apply_player_move g player origin target =
      (g, { legal := false, error := some "must_continue_capture" }) := by
  simp [apply_player_move, h1, h2]

theorem apply_player_move_main {g : GameRules} {player origin target : Nat}
    {st : Board × MoveResult}
    (h1 : player = g.turn.to_move)
    (h2 : ¬ ∃ f, g.turn.pending_capture_from = some f ∧ origin ≠ f)
    (hst : apply_move g.board player origin target g.turn.pending_capture_from.isSome = st) :
    apply_player_move g player origin target =
      if ¬ st.2.legal then ({ g with board := st.1 }, st.2)
      else
        ({ board := st.1,
           turn :=
             if st.2.winner.isSome then
               { (if st.2.captured.isSome ∧ st.2.must_continue then
                    { g.turn with pending_capture_from := some target }
                  else swap_turn g.turn) with pending_capture_from := none }
             else
               (if st.2.captured.isSome ∧ st.2.must_continue then
                  { g.turn with pending_capture_from := some target }
                else swap_turn g.turn) }, st.2) := by
  subst hst
  simp [apply_player_move, h1, h2]

theorem apply_player_move_main_illegal {g : GameRules} {player origin target : Nat}
    {st : Board × MoveResult}
    (h1 : player = g.turn.to_move)
    (h2 : ¬ ∃ f, g.turn.pending_capture_from = some f ∧ origin ≠ f)
    (hst : apply_move g.board player origin target g.turn.pending_capture_from.isSome = st)
    (hr : st.2.legal = false) :
    apply_player_move g player origin target = ({ g with board := st.1 }, st.2) := by
  rw [apply_player_move_main h1 h2 hst]
  simp [hr]

theorem apply_player_move_main_legal {g : GameRules} {player origin target : Nat}
    {st : Board × MoveResult}
    (h1 : player = g.turn.to_move)
    (h2 : ¬ ∃ f, g.turn.pending_capture_from = some f ∧ origin ≠ f)
    (hst : apply_move g.board player origin target g.turn.pending_capture_from.isSome = st)
    (hr : st.2.legal = true) :
    apply_player_move g player origin target =
      ({ board := st.1,
         turn :=
           if st.2.winner.isSome then
             { (if st.2.captured.isSome ∧ st.2.must_continue then
                  { g.turn with pending_capture_from := some target }
                else swap_turn g.turn) with pending_capture_from := none }
           else
             (if st.2.captured.isSome ∧ st.2.must_continue then
                { g.turn with pending_capture_from := some target }
              else swap_turn g.turn) }, st.2) := by
  rw [apply_player_move_main h1 h2 hst]
  simp [hr]

theorem check_winner_spec (b : Board) :
    (check_winner b = some 2 ↔ remaining b 1 = 0 ∧ remaining b 2 ≠ 0) ∧
    (check_winner b = some 1 ↔ remaining b 2 = 0 ∧ remaining b 1 ≠ 0) ∧
    (check_winner b = none ↔
      ((remaining b 1 = 0 ∧ remaining b 2 = 0) ∨
       (remaining b 1 ≠ 0 ∧ remaining b 2 ≠ 0))) := by
  unfold check_winner
  by_cases h1 : remaining b 1 = 0 <;> by_cases h2 : remaining b 2 = 0 <;>
    simp [h1, h2]

theorem apply_player_move_board_step (g : GameRules) (p o t : Nat)
    (hlen : g.board.length = 37) :
    (apply_player_move g p o t).1.board.length = 37 ∧
    total (apply_player_move g p o t).1.board ≤ total g.board := by
  by_cases h1 : p = g.turn.to_move
  · by_cases h2 : ∃ f, g.turn.pending_capture_from = some f ∧ o ≠ f
    · rw [apply_player_move_must_continue_guard h1 h2]
      exact ⟨hlen, le_refl _⟩
    · rcases hst : apply_move g.board p o t g.turn.pending_capture_from.isSome with ⟨b', r⟩
      by_cases hr : r.legal
      · rw [apply_player_move_main_legal h1 h2 hst hr]
        have han := apply_move_anatomy hlen (by rw [hst]; exact hr)
        rw [hst] at han
        simp only at han ⊢
        refine ⟨han.1, ?_⟩
        rcases hc : r.captured with _ | c
        · have := han.2.2.2.1 hc
          omega
        · have := han.2.2.1 (by rw [hc]; rfl)
          omega
      · have hr' : r.legal = false := by simpa using hr
        rw [apply_player_move_main_illegal h1 h2 hst hr']
        have hr2 : (apply_move g.board p o t
            g.turn.pending_capture_from.isSome).2.legal = false := by
          rw [hst]; exact hr'
        have hinfo := apply_move_not_legal hr2
        rw [hst] at hinfo
        simp only at hinfo ⊢
        rw [hinfo.1]
        exact ⟨hlen, le_refl _⟩
  · rw [apply_player_move_not_your_turn h1]
    exact ⟨hlen, le_refl _⟩

theorem play_cons (g : GameRules) (m : PlayerId × Nat × Nat)
    (rest : List (PlayerId × Nat × Nat)) :
    play g (m :: rest) = play (apply_player_move g m.1 m.2.1 m.2.2).1 rest := rfl

theorem play_total_nonincreasing :
    ∀ (ms : List (PlayerId × Nat × Nat)) (g : GameRules), g.board.length = 37 →
      (play g ms).board.length = 37 ∧ total (play g ms).board ≤ total g.board := by
  intro ms
  induction ms with
  | nil =>
    intro g hlen
    exact ⟨hlen, le_refl _⟩
  | cons m rest ih =>
    intro g hlen
    have hstep := apply_player_move_board_step g m.1 m.2.1 m.2.2 hlen
    have hrec := ih (apply_player_move g m.1 m.2.1 m.2.2).1 hstep.1
    rw [play_cons]
    exact ⟨hrec.1, le_trans hrec.2 hstep.2⟩

theorem reachable_board_length {g : GameRules} (h : Reachable g) : g.board.length = 37 := by
  induction h with
  | init => decide
  | @step player origin target g0 _hg ih =>
    exact (apply_player_move_board_step g0 player origin target ih).1

/-! ## Claim theorems -/

/-- C1: every `apply_player_move` call that returns a legal result either
signals `must_continue` — and then the pending-capture-origin is set to the
target and the player to move is unchanged — or it does not, and then the
pending-capture-origin is cleared and the turn flips to the opponent. -/
theorem C1_chain_turn_bookkeeping (g : GameRules) (player origin target : Nat)
    (hlegal : (apply_player_move g player origin target).2.legal = true) :
    ((apply_player_move g player origin target).2.must_continue = true →
      (apply_player_move g player origin target).1.turn.pending_capture_from = some target ∧
      (apply_player_move g player origin target).1.turn.to_move = g.turn.to_move) ∧
    ((apply_player_move g player origin target).2.must_continue = false →
      (apply_player_move g player origin target).1.turn.pending_capture_from = none ∧
      (apply_player_move g player origin target).1.turn.to_move = opponent g.turn.to_move) := by
  by_cases h1 : player = g.turn.to_move
  · by_cases h2 : ∃ f, g.turn.pending_capture_from = some f ∧ origin ≠ f
    · rw [apply_player_move_must_continue_guard h1 h2] at hlegal
      simp at hlegal
    · rcases hst : apply_move g.board player origin target g.turn.pending_capture_from.isSome
        with ⟨b', r⟩
      have hmain := apply_player_move_main h1 h2 hst
      rw [hmain] at hlegal ⊢
      by_cases hr : r.legal
      · simp only [hr, not_true_eq_false, if_false] at hlegal ⊢
        constructor
        · intro hmc
          have hmc2 : (apply_move g.board player origin target
              g.turn.pending_capture_from.isSome).2.must_continue = true := by
            rw [hst]; exact hmc
          have hinv := apply_move_must_continue_inv hmc2
          rw [hst] at hinv
          simp only at hinv
          simp [hmc, hinv.1, hinv.2.1]
        · intro hmc
          simp only [hmc, and_false, if_false]
          by_cases hw : r.winner.isSome <;> simp [hw, swap_turn, opponent]
      · simp [hr] at hlegal
  · rw [apply_player_move_not_your_turn h1] at hlegal
    simp at hlegal

/-- C1 witness: the opening simple move 22→17 by player 2 is legal, does not
continue, clears the pending origin and flips the turn. -/
theorem C1_witness :
    (apply_player_move initial_rules 2 22 17).2.legal = true ∧
    (apply_player_move initial_rules 2 22 17).2.must_continue = false ∧
    (apply_player_move initial_rules 2 22 17).1.turn.pending_capture_from = none ∧
    (apply_player_move initial_rules 2 22 17).1.turn.to_move = opponent 2 := by
  refine ⟨by decide, by decide, ?_⟩
  have h := (C1_chain_turn_bookkeeping initial_rules 2 22 17 (by decide)).2 (by decide)
  exact h

/-- C2 counterexample: the claim's biconditional "`must_continue_capture` is
returned exactly when a pending-capture-origin is set and the origin differs
from it" fails when the mover is also out of turn: with player 2 to move and
pending origin 9, a call by player 1 from origin 7 returns `not_your_turn`,
although the pending origin is set and differs from the requested origin. -/
theorem C2_counterexample :
    ¬ (∀ (g : GameRules) (player origin target : Nat),
        (apply_player_move g player origin target).2.legal = false →
          ((apply_player_move g player origin target).1 = g ∧
           ((apply_player_move g player origin target).2.error = some "not_your_turn" ↔
             player ≠ g.turn.to_move) ∧
           ((apply_player_move g player origin target).2.error =
               some "must_continue_capture" ↔
             ∃ f, g.turn.pending_capture_from = some f ∧ origin ≠ f))) := by
  intro hclaim
  have h := hclaim
    { board := initial_board, turn := { to_move := 2, pending_capture_from := some 9 } }
    1 7 8 (by decide)
  have h2 := h.2.2.mpr ⟨9, rfl, by decide⟩
  exact absurd h2 (by decide)

/-- C2 (amended): an illegal `apply_player_move` result is returned as a
value with the board and turn state unchanged; the error is one of the three
reasons; `not_your_turn` is returned exactly when the mover is out of turn,
and `must_continue_capture` exactly when the mover is in turn, a
pending-capture-origin is set, and the requested origin differs from it. -/
theorem C2_illegal_result (g : GameRules) (player origin target : Nat)
    (hlegal : (apply_player_move g player origin target).2.legal = false) :
    (apply_player_move g player origin target).1 = g ∧
    ((apply_player_move g player origin target).2.error = some "not_your_turn" ∨
     (apply_player_move g player origin target).2.error = some "must_continue_capture" ∨
     (apply_player_move g player origin target).2.error = some "illegal_move") ∧
    ((apply_player_move g player origin target).2.error = some "not_your_turn" ↔
      player ≠ g.turn.to_move) ∧
    ((apply_player_move g player origin target).2.error = some "must_continue_capture" ↔
      player = g.turn.to_move ∧
        ∃ f, g.turn.pending_capture_from = some f ∧ origin ≠ f) := by
  by_cases h1 : player = g.turn.to_move
  · by_cases h2 : ∃ f, g.turn.pending_capture_from = some f ∧ origin ≠ f
    · rw [apply_player_move_must_continue_guard h1 h2]
      refine ⟨rfl, Or.inr (Or.inl rfl), ?_, ?_⟩
      · simp only [h1]
        constructor
        · intro hc
          exact absurd (Option.some.inj hc) (by decide)
        · intro hc
          exact absurd rfl hc
      · simp [h1, h2]
    · rcases hst : apply_move g.board player origin target g.turn.pending_capture_from.isSome
        with ⟨b', r⟩
      rw [apply_player_move_main h1 h2 hst] at hlegal
      by_cases hr : r.legal
      · simp [hr] at hlegal
      · have hr' : r.legal = false := by simpa using hr
        have hr2 : (apply_move g.board player origin target
            g.turn.pending_capture_from.isSome).2.legal = false := by
          rw [hst]; exact hr'
        have hinfo := apply_move_not_legal hr2
        rw [hst] at hinfo
        simp only at hinfo
        rw [apply_player_move_main_illegal h1 h2 hst hr']
        simp only [hinfo.2]
        refine ⟨?_, Or.inr (Or.inr (by trivial)), ?_, ?_⟩
        · rw [hinfo.1]
        · constructor
          · intro hc
            exact absurd (Option.some.inj hc) (by decide)
          · intro hc
            exact absurd h1 hc
        · constructor
          · intro hc
            exact absurd (Option.some.inj hc) (by decide)
          · intro hc
            exact absurd hc.2 h2
  · rw [apply_player_move_not_your_turn h1]
    refine ⟨rfl, Or.inl rfl, by simp [h1], ?_⟩
    constructor
    · intro hc
      exact absurd (Option.some.inj hc) (by decide)
    · intro hc
      exact absurd hc.1 h1

/-- C2 witness: a call by the out-of-turn player 1 at game start is rejected
with `not_your_turn` and changes nothing. -/
theorem C2_witness :
    (apply_player_move initial_rules 1 1 2).2.legal = false ∧
    (apply_player_move initial_rules 1 1 2).1 = initial_rules ∧
    (apply_player_move initial_rules 1 1 2).2.error = some "not_your_turn" := by
  have h := C2_illegal_result initial_rules 1 1 2 (by decide)
  exact ⟨by decide, h.1, h.2.2.1.mpr (by decide)⟩

/-- C5: every move produced by `capture_moves` captures the neighbor of an
edge from the origin that carries a landing node, with the neighbor held by
the opponent and the landing empty beforehand; applying the move is legal and
empties the captured node; and in Scenario B's position, `capture_moves(9,2)`
contains MoveOption(origin=9, target=1, captured=4). -/
theorem C5_capture_moves_sound (b : Board) (origin : Nat) (player : PlayerId)
    (m : MoveOption) (hm : m ∈ capture_moves b origin player) :
    ((∃ e ∈ neighbors origin, e.landing = some m.target ∧ m.captured = some e.neighbor ∧
        occupant b e.neighbor = some (opponent player) ∧ occupant b m.target = none) ∧
      (apply_move b player origin m.target true).2.legal = true ∧
      ∀ c, m.captured = some c →
        occupant (apply_move b player origin m.target true).1 c = none) ∧
    { origin := 9, target := 1, captured := some 4 } ∈ capture_moves scenario_board 9 2 := by
  have hfind : (legal_moves b origin player true).find? (fun mv => mv.target = m.target) =
      some m := find?_capture_moves_self hm
  obtain ⟨_, _, e, he, hland, hcapt, hmid, htempty⟩ := mem_capture_moves hm
  refine ⟨⟨⟨e, he, hland, hcapt, hmid, htempty⟩, ?_, ?_⟩, by decide⟩
  · rw [apply_move_of_find_some hfind]
  · intro c hc
    rw [apply_move_of_find_some hfind]
    have hcc : c = e.neighbor := by
      rw [hcapt] at hc
      exact (Option.some.inj hc).symm
    subst hcc
    obtain ⟨hc1, hc2, hclen, _⟩ := occupant_some_bounds hmid
    rw [hc, move_board]
    simp only [set_occupant]
    unfold occupant
    rw [if_pos ⟨hc1, hc2⟩]
    rw [getD_set_self (by simp only [List.length_set]; omega)]

/-- C5 witness: in Scenario B's position the capture 9×4→1 is generated, is
legal to apply, and leaves node 4 empty. -/
theorem C5_witness :
    ({ origin := 9, target := 1, captured := some 4 } : MoveOption) ∈
      capture_moves scenario_board 9 2 ∧
    (apply_move scenario_board 2 9 1 true).2.legal = true ∧
    occupant (apply_move scenario_board 2 9 1 true).1 4 = none := by
  have h := C5_capture_moves_sound scenario_board 9 2
    { origin := 9, target := 1, captured := some 4 } (by decide)
  exact ⟨h.2, h.1.2.1, h.1.2.2 4 rfl⟩

/-- C6: with `require_capture` true, `legal_moves` is exactly the capture set;
with it false, it is captures followed by simple moves when a capture exists,
and simple moves alone otherwise. -/
theorem C6_legal_moves_shape (b : Board) (origin : Nat) (player : PlayerId) :
    legal_moves b origin player true = capture_moves b origin player ∧
    legal_moves b origin player false =
      (if capture_moves b origin player ≠ [] then
        capture_moves b origin player ++ simple_moves b origin player
      else simple_moves b origin player) := by
  constructor <;> rfl

/-- C8 counterexample: in `blocked_rules` both sides still have pieces and
player 1 (to move) has no legal moves, yet `minimax` at depth 1 does not
return the static evaluation: `_winner_for_state` scores the stuck side as an
immediate loss first. -/
theorem C8_counterexample :
    ¬ (∀ (agent : PlayerId) (state : GameRules) (depth : Nat) (alpha beta : Score),
        remaining state.board 1 ≠ 0 → remaining state.board 2 ≠ 0 →
        generate_moves state none = [] → 0 < depth →
        minimax agent depth state alpha beta = intScore (evaluate agent state)) := by
  intro hclaim
  have h := hclaim 1 blocked_rules 1 negInf posInf (by decide) (by decide) (by decide)
    (by decide)
  exact absurd h (by decide)

/-- C8 (amended): when both players still have pieces and the side to move
has no legal moves, `_winner_for_state` already reports the opponent of the
side to move as winner, so `minimax` at any depth returns `+inf` when that
opponent is the agent and `-inf` otherwise — never the static evaluation. -/
theorem C8_stuck_side_is_loss (agent : PlayerId) (state : GameRules) (depth : Nat)
    (alpha beta : Score)
    (h1 : remaining state.board 1 ≠ 0) (h2 : remaining state.board 2 ≠ 0)
    (hmoves : generate_moves state none = [])
    (_hdepth : 0 < depth) :
    minimax agent depth state alpha beta =
      (if opponent state.turn.to_move = agent then posInf else negInf) := by
  have hw : winner_for_state state = some (opponent state.turn.to_move) := by
    unfold winner_for_state
    rw [if_neg (by tauto), if_neg h1, if_neg h2, if_pos hmoves]
  rw [minimax.eq_def, hw]
  by_cases heq : opponent state.turn.to_move = agent
  · simp [heq]
  · simp [heq]

/-- C8 witness: in `blocked_rules` with agent 1 at depth 1, the search scores
the position as a loss (`-inf`), and that differs from the static evaluation. -/
theorem C8_witness :
    remaining blocked_rules.board 1 ≠ 0 ∧ remaining blocked_rules.board 2 ≠ 0 ∧
    generate_moves blocked_rules none = [] ∧
    minimax 1 1 blocked_rules negInf posInf =
      (if opponent blocked_rules.turn.to_move = 1 then posInf else negInf) ∧
    minimax 1 1 blocked_rules negInf posInf ≠ intScore (evaluate 1 blocked_rules) := by
  refine ⟨by decide, by decide, by decide, ?_, by decide⟩
  exact C8_stuck_side_is_loss 1 blocked_rules 1 negInf posInf (by decide) (by decide)
    (by decide) (by decide)

/-- One MCTS iteration on a childless node with no untried moves only rolls
out and updates the node's counters; it never creates children. -/
theorem mcts_step_no_untried (agent : PlayerId) (c : Float) (stream : Nat → Nat)
    (fuel : Nat) (s : GameRules) (mv : Option MoveOption) (visits : Nat) (wins : Float)
    (k : Nat) :
    mcts_step agent c stream fuel (.mk s mv [] visits wins []) k =
      (.mk s mv [] (visits + 1) (wins + (mcts_rollout agent stream 200 s k).1) [],
        some (mcts_rollout agent stream 200 s k).1,
        (mcts_rollout agent stream 200 s k).2) := by
  have hleaf : mcts_leaf agent stream (.mk s mv [] visits wins []) k =
      (.mk s mv [] (visits + 1) (wins + (mcts_rollout agent stream 200 s k).1) [],
        some (mcts_rollout agent stream 200 s k).1,
        (mcts_rollout agent stream 200 s k).2) := by
    unfold mcts_leaf
    rw [if_neg (by simp [MCTSTree.untried])]
    rfl
  cases fuel with
  | zero => rw [mcts_step, hleaf]
  | succ n =>
    rw [mcts_step]
    rw [if_neg (by simp [MCTSTree.children])]
    rw [hleaf]

/-- When the node still has untried moves, no descent happens: one iteration
is just the expansion/rollout phase. -/
theorem mcts_step_untried_nonempty (agent : PlayerId) (c : Float) (stream : Nat → Nat)
    (fuel : Nat) (t : MCTSTree) (k : Nat) (h : t.untried.length ≠ 0) :
    mcts_step agent c stream fuel t k = mcts_leaf agent stream t k := by
  cases fuel with
  | zero => rw [mcts_step]
  | succ n =>
    rw [mcts_step, if_neg (by simp [h])]

/-- The whole iteration loop preserves a childless, untried-free root, only
bumping its counters. -/
theorem mcts_loop_no_untried (agent : PlayerId) (c : Float) (stream : Nat → Nat) :
    ∀ (n : Nat) (s : GameRules) (mv : Option MoveOption) (visits : Nat) (wins : Float)
      (k : Nat), ∃ visits2 wins2 k2,
      mcts_loop agent c stream n (.mk s mv [] visits wins []) k =
        (.mk s mv [] visits2 wins2 [], k2) := by
  intro n
  induction n with
  | zero =>
    intro s mv visits wins k
    exact ⟨visits, wins, k, rfl⟩
  | succ n ih =>
    intro s mv visits wins k
    rw [mcts_loop]
    rw [mcts_step_no_untried]
    exact ih s mv _ _ _

/-- C9: `MCTSAgent.choose_move` (for any iteration budget, exploration
constant and random stream) reports no move exactly by returning `none` when
the side to move has no legal moves; and on a state whose outcome is still
open — so the side to move has at least one legal move — a single iteration
already commits to some legal generated move. -/
theorem C9_mcts_choose_move (agent : PlayerId) (iterations : Nat) (c : Float)
    (stream : Nat → Nat) (state : GameRules) :
    (generate_moves state none = [] →
      mcts_choose_move agent iterations c stream state = none) ∧
    (winner_for_state state = none → generate_moves state none ≠ [] →
      ∃ m ∈ generate_moves state none,
        mcts_choose_move agent 1 c stream state =
          some { origin := m.origin, target := m.target } ∧
        (apply_player_move state state.turn.to_move m.origin m.target).2.legal = true) := by
  constructor
  · intro hmoves
    unfold mcts_choose_move
    have hroot : mcts_new_node state none = .mk state none [] 0 0.0 [] := by
      rw [mcts_new_node, hmoves]
    rw [hroot]
    dsimp only
    obtain ⟨v2, w2, k2, hloop⟩ := mcts_loop_no_untried agent c stream
      (max 1 iterations) state none 0 0.0 0
    rw [hloop]
    rfl
  · intro hw hmoves
    have hlen : 0 < (generate_moves state none).length :=
      List.length_pos.mpr hmoves
    have hterm : (MCTSTree.mk state none (generate_moves state none) 0 0.0
        []).is_terminal = false := by
      rw [MCTSTree.is_terminal]
      rw [if_neg (by simp [MCTSTree.state, hw])]
      simp [MCTSTree.state, hmoves]
    have hidx : stream 0 % (generate_moves state none).length <
        (generate_moves state none).length := Nat.mod_lt _ hlen
    set mv := (generate_moves state none).getD
      (stream 0 % (generate_moves state none).length)
      { origin := 0, target := 0, captured := none } with hmv
    have hmem : mv ∈ generate_moves state none := by
      rw [hmv, List.getD_eq_getElem?_getD, List.getElem?_eq_getElem hidx]
      exact List.getElem_mem hidx
    have hlegal := generate_moves_sound hmem
    refine ⟨mv, hmem, ?_, hlegal⟩
    unfold mcts_choose_move
    dsimp only
    have hloop1 : mcts_loop agent c stream (max 1 1) (mcts_new_node state none) 0 =
        ((mcts_step agent c stream (tree_size (mcts_new_node state none))
            (mcts_new_node state none) 0).1,
          (mcts_step agent c stream (tree_size (mcts_new_node state none))
            (mcts_new_node state none) 0).2.2) := rfl
    rw [hloop1]
    rw [mcts_step_untried_nonempty agent c stream _ _ 0 (by
      rw [mcts_new_node]
      show (generate_moves state none).length ≠ 0
      omega)]
    have hleaf : mcts_leaf agent stream (mcts_new_node state none) 0 =
        (.mk state none
          ((generate_moves state none).eraseIdx
            (stream 0 % (generate_moves state none).length))
          1 (0.0 + (mcts_rollout agent stream 200
            (apply_player_move state state.turn.to_move mv.origin mv.target).1 1).1)
          [MCTSTree.mk (apply_player_move state state.turn.to_move mv.origin mv.target).1
            (some mv)
            (generate_moves
              (apply_player_move state state.turn.to_move mv.origin mv.target).1 none)
            1 (mcts_rollout agent stream 200
              (apply_player_move state state.turn.to_move mv.origin mv.target).1 1).1 []],
          some (mcts_rollout agent stream 200
            (apply_player_move state state.turn.to_move mv.origin mv.target).1 1).1,
          (mcts_rollout agent stream 200
            (apply_player_move state state.turn.to_move mv.origin mv.target).1 1).2) := by
      unfold mcts_leaf
      rw [if_pos (by
        constructor
        · rw [mcts_new_node]
          exact hterm
        · rw [mcts_new_node]
          show (generate_moves state none).length ≠ 0
          omega)]
      rw [mcts_new_node]
      simp only [MCTSTree.untried, MCTSTree.state, MCTSTree.move, MCTSTree.visits,
        MCTSTree.wins, MCTSTree.children]
      rw [← hmv]
      rw [if_pos hlegal]
      simp
    rw [hleaf]
    rfl

/-- C9 witness: on `blocked_rules` (the stuck side to move) the agent returns
no move at any budget; on Scenario B's live position a single iteration
returns the capture 9×4→1, a legal generated move. -/
theorem C9_witness :
    generate_moves blocked_rules none = [] ∧
    mcts_choose_move 1 5 (Float.sqrt 2.0) (fun _ => 0) blocked_rules = none ∧
    winner_for_state scenario_rules = none ∧
    generate_moves scenario_rules none ≠ [] ∧
    ∃ m ∈ generate_moves scenario_rules none,
      mcts_choose_move 2 1 (Float.sqrt 2.0) (fun _ => 0) scenario_rules =
        some { origin := m.origin, target := m.target } ∧
      (apply_player_move scenario_rules scenario_rules.turn.to_move m.origin
        m.target).2.legal = true := by
  refine ⟨by decide, ?_, by decide, by decide, ?_⟩
  · exact (C9_mcts_choose_move 1 5 (Float.sqrt 2.0) (fun _ => 0) blocked_rules).1
      (by decide)
  · exact (C9_mcts_choose_move 2 1 (Float.sqrt 2.0) (fun _ => 0) scenario_rules).2
      (by decide) (by decide)

/-- C10: when `origin` is not occupied by `player`, `capture_moves` returns
the empty list (the same occupancy guard as `simple_moves`). -/
theorem C10_capture_guard (b : Board) (player origin : Nat)
    (_hplayer : player = 1 ∨ player = 2) (_hlo : 1 ≤ origin) (_hhi : origin ≤ 37)
    (hocc : occupant b origin ≠ some player) :
    capture_moves b origin player = [] := by
  simp [capture_moves, hocc]

/-- C10 witness: node 17 is empty at game start, so player 1 has no captures
from it. -/
theorem C10_witness :
    ((1 : Nat) = 1 ∨ (1 : Nat) = 2) ∧ occupant initial_board 17 ≠ some 1 ∧
    capture_moves initial_board 17 1 = [] :=
  ⟨Or.inl rfl, by decide,
   C10_capture_guard initial_board 1 17 (Or.inl rfl) (by decide) (by decide) (by decide)⟩

/-- C3: a legal `apply_move` that captures lowers `remaining(1) + remaining(2)`
by exactly one, a legal non-capturing one leaves it unchanged, an illegal one
leaves the board untouched, and along any sequence of applied moves from the
initial position the total is non-increasing. -/
theorem C3_piece_count (b : Board) (player : PlayerId) (origin target : Nat) (rc : Bool)
    (hlen : b.length = 37) :
    ((apply_move b player origin target rc).2.legal = true →
      ((apply_move b player origin target rc).2.captured.isSome = true →
        total (apply_move b player origin target rc).1 + 1 = total b) ∧
      ((apply_move b player origin target rc).2.captured = none →
        total (apply_move b player origin target rc).1 = total b)) ∧
    ((apply_move b player origin target rc).2.legal = false →
      (apply_move b player origin target rc).1 = b) ∧
    (∀ ms : List (PlayerId × Nat × Nat),
      total (play initial_rules ms).board ≤ total initial_rules.board) := by
  refine ⟨?_, ?_, ?_⟩
  · intro hlegal
    have han := apply_move_anatomy hlen hlegal
    exact ⟨han.2.2.1, han.2.2.2.1⟩
  · intro hlegal
    exact (apply_move_not_legal hlegal).1
  · intro ms
    exact (play_total_nonincreasing ms initial_rules (by decide)).2

/-- C3 witness: player 2's opening capture-free move 22→17 keeps the total at
32, and the capture reached by 22→17, 16→21, 24→19, 14×19→24 lowers it to 31. -/
theorem C3_witness :
    initial_board.length = 37 ∧
    (apply_move initial_board 2 22 17 false).2.legal = true ∧
    (apply_move initial_board 2 22 17 false).2.captured = none ∧
    total (apply_move initial_board 2 22 17 false).1 = total initial_board ∧
    total (play initial_rules [(2, 22, 17), (1, 16, 21), (2, 24, 19), (1, 14, 24)]).board
      ≤ total initial_rules.board := by
  have h := C3_piece_count initial_board 2 22 17 false (by decide)
  exact ⟨by decide, by decide, by decide, (h.1 (by decide)).2 (by decide),
    h.2.2 [(2, 22, 17), (1, 16, 21), (2, 24, 19), (1, 14, 24)]⟩

/-- C4: in every state reachable from the initial position, a set
pending-capture-origin points at a node occupied by the player to move from
which a capture is available. -/
theorem C4_pending_capture_invariant (g : GameRules) (hreach : Reachable g) :
    ∀ f, g.turn.pending_capture_from = some f →
      occupant g.board f = some g.turn.to_move ∧
      capture_moves g.board f g.turn.to_move ≠ [] := by
  induction hreach with
  | init =>
    intro f hpend
    simp [initial_rules] at hpend
  | @step player origin target g0 hg ih =>
    intro f hpend
    by_cases h1 : player = g0.turn.to_move
    · by_cases h2 : ∃ f0, g0.turn.pending_capture_from = some f0 ∧ origin ≠ f0
      · rw [apply_player_move_must_continue_guard h1 h2] at hpend ⊢
        exact ih f hpend
      · rcases hst : apply_move g0.board player origin target
          g0.turn.pending_capture_from.isSome with ⟨b', r⟩
        by_cases hr : r.legal
        · rw [apply_player_move_main_legal h1 h2 hst hr] at hpend ⊢
          simp only at hpend ⊢
          by_cases hw : r.winner.isSome
          · simp [hw] at hpend
          · simp only [hw, if_false] at hpend ⊢
            by_cases hcc : r.captured.isSome = true ∧ r.must_continue = true
            · simp only [if_pos hcc] at hpend ⊢
              have hft : target = f := by simpa using hpend
              have hmc2 : (apply_move g0.board player origin target
                  g0.turn.pending_capture_from.isSome).2.must_continue = true := by
                rw [hst]; exact hcc.2
              have hinv := apply_move_must_continue_inv hmc2
              have han := apply_move_anatomy (reachable_board_length hg)
                (by rw [hst]; exact hr)
              rw [hst] at hinv han
              simp only at hinv han
              rw [← hft, ← h1]
              exact ⟨han.2.1, hinv.2.2⟩
            · simp only [if_neg hcc] at hpend
              simp [swap_turn] at hpend
        · have hr' : r.legal = false := by simpa using hr
          rw [apply_player_move_main_illegal h1 h2 hst hr'] at hpend ⊢
          have hr2 : (apply_move g0.board player origin target
              g0.turn.pending_capture_from.isSome).2.legal = false := by
            rw [hst]; exact hr'
          have hinfo := apply_move_not_legal hr2
          rw [hst] at hinfo
          simp only at hinfo hpend ⊢
          rw [hinfo.1]
          exact ih f hpend
    · rw [apply_player_move_not_your_turn h1] at hpend ⊢
      exact ih f hpend

/-- C4 witness: after 22→17, 16→21, 24→19 and the capture 14×19→24, the
pending origin 24 is held by player 1 (to move) and has a further capture. -/
theorem C4_witness :
    (play initial_rules [(2, 22, 17), (1, 16, 21), (2, 24, 19), (1, 14, 24)]
      ).turn.pending_capture_from = some 24 ∧
    occupant (play initial_rules [(2, 22, 17), (1, 16, 21), (2, 24, 19), (1, 14, 24)]).board
        24 =
      some (play initial_rules
        [(2, 22, 17), (1, 16, 21), (2, 24, 19), (1, 14, 24)]).turn.to_move ∧
    capture_moves
        (play initial_rules [(2, 22, 17), (1, 16, 21), (2, 24, 19), (1, 14, 24)]).board 24
        (play initial_rules
          [(2, 22, 17), (1, 16, 21), (2, 24, 19), (1, 14, 24)]).turn.to_move ≠ [] := by
  refine ⟨by decide, ?_⟩
  have hreach : Reachable
      (play initial_rules [(2, 22, 17), (1, 16, 21), (2, 24, 19), (1, 14, 24)]) :=
    Reachable.step 1 14 24 (Reachable.step 2 24 19
      (Reachable.step 1 16 21 (Reachable.step 2 22 17 Reachable.init)))
  exact C4_pending_capture_invariant _ hreach 24 (by decide)

/-- C7: for every legal `apply_move`, the winner field is player 2 exactly
when player 1 is wiped out and player 2 is not (symmetrically for player 1),
absent exactly when both or neither side is wiped out, and `must_continue`
holds exactly when a capture just occurred, no winner was decided, and a
further capture exists from the landing node for the mover. -/
theorem C7_winner_and_continuation (b : Board) (player : PlayerId) (origin target : Nat)
    (rc : Bool) (hlegal : (apply_move b player origin target rc).2.legal = true) :
    ((apply_move b player origin target rc).2.winner = some 2 ↔
      remaining (apply_move b player origin target rc).1 1 = 0 ∧
      remaining (apply_move b player origin target rc).1 2 ≠ 0) ∧
    ((apply_move b player origin target rc).2.winner = some 1 ↔
      remaining (apply_move b player origin target rc).1 2 = 0 ∧
      remaining (apply_move b player origin target rc).1 1 ≠ 0) ∧
    ((apply_move b player origin target rc).2.winner = none ↔
      ((remaining (apply_move b player origin target rc).1 1 = 0 ∧
        remaining (apply_move b player origin target rc).1 2 = 0) ∨
       (remaining (apply_move b player origin target rc).1 1 ≠ 0 ∧
        remaining (apply_move b player origin target rc).1 2 ≠ 0))) ∧
    ((apply_move b player origin target rc).2.must_continue = true ↔
      ((apply_move b player origin target rc).2.captured.isSome = true ∧
       (apply_move b player origin target rc).2.winner = none ∧
       capture_moves (apply_move b player origin target rc).1 target player ≠ [])) := by
  rcases hfind : (legal_moves b origin player rc).find? (fun mv => mv.target = target)
    with _ | option
  · rw [apply_move_of_find_none hfind] at hlegal
    simp at hlegal
  · rw [apply_move_of_find_some hfind]
    simp only
    refine ⟨(check_winner_spec _).1, (check_winner_spec _).2.1, (check_winner_spec _).2.2, ?_⟩
    by_cases hcond : option.captured.isSome = true ∧
        check_winner (move_board b player origin target option.captured) = none
    · rw [if_pos hcond]
      simp only [hcond.1, hcond.2, true_and, decide_eq_true_eq]
      constructor
      · intro hlen hnil
        rw [hnil] at hlen
        simp at hlen
      · intro hrhs
        exact Nat.pos_of_ne_zero (by simpa [List.length_eq_zero] using hrhs)
    · rw [if_neg hcond]
      simp only [Bool.false_eq_true, false_iff]
      intro hrhs
      exact hcond ⟨hrhs.1, hrhs.2.1⟩

/-- C7 witness: the opening move 22→17 is legal, captures nothing, decides no
winner (both sides keep 16 pieces) and requires no continuation. -/
theorem C7_witness :
    (apply_move initial_board 2 22 17 false).2.legal = true ∧
    (apply_move initial_board 2 22 17 false).2.winner = none ∧
    (apply_move initial_board 2 22 17 false).2.must_continue = false := by
  have h := C7_winner_and_continuation initial_board 2 22 17 false (by decide)
  exact ⟨by decide, h.2.2.1.mpr (Or.inr ⟨by decide, by decide⟩), by decide⟩

end Shologuti
